import Mathlib

/-!
Shallow embedding of the becs archetype-based ECS core, translated from
src/blob_data.rs, src/archetype.rs, src/bundle.rs, src/world.rs and
src/query.rs.

Modelling conventions:
* Machine integers (`u64` bitmasks, `usize` indices, `u8` bit counters) are
  `Nat`; bitwise operations use `Nat` operators and the `u64` complement `!bit`
  is taken against `U64MASK = 2 ^ 64 - 1`.  Checked-arithmetic panics (the
  `1_u64 << 64` shift overflow), out-of-bounds slice indexing and `unwrap`
  panics are modelled with `Except String`.
* Type-erased byte blobs are abstracted to values `Val := Nat`, a component
  type is its `TypeId := Nat`, and entity ids stored in the archetype back-map
  are the `usize` values world.rs feeds to `insert_row` / reads back from
  `swap_remove`.  Destructor invocations (`TypeInfo::drop`) are recorded as
  `(TypeId, Val)` events returned by the operations that drop; allocation,
  capacity and alignment bookkeeping of `BlobData` has no observable effect on
  the stored sequence of values and is elided.
* `HashMap`s are association lists with `HashMap::insert` replace semantics;
  the source only creates one column per type id, so keys are unique.
-/

namespace Becs

abbrev TypeId := Nat

abbrev Val := Nat

def U64MASK : Nat := 2 ^ 64 - 1

def USIZE_MAX : Nat := 2 ^ 64 - 1

/-- Association-list lookup, the embedding of `HashMap::get`. -/
def alLookup {κ α : Type} [DecidableEq κ] : List (κ × α) → κ → Option α
  | [], _ => none
  | p :: rest, k => if p.1 = k then some p.2 else alLookup rest k

/-- Association-list insert with `HashMap::insert` replace semantics. -/
def alInsert {κ α : Type} [DecidableEq κ] : List (κ × α) → κ → α → List (κ × α)
  | [], k, v => [(k, v)]
  | p :: rest, k, v => if p.1 = k then (k, v) :: rest else p :: alInsert rest k v

/-- Checked indexing, the embedding of panicking `Vec` indexing `v[i]`. -/
def listGetE {α : Type} (l : List α) (i : Nat) : Except String α :=
  match l.get? i with
  | some a => Except.ok a
  | none => Except.error "index out of bounds"

/-- Checked in-place update, the embedding of `v[i] = x` on a `Vec`. -/
def listSetE {α : Type} (l : List α) (i : Nat) (a : α) : Except String (List α) :=
  if i < l.length then Except.ok (l.set i a) else Except.error "index out of bounds"

/-- `Vec::swap(a, b)`; the source call sites guarantee the bounds
(`debug_assert` in blob_data.rs, the `count` check in archetype.rs), the
fallback branch is the unreachable out-of-contract case. -/
def listSwap {α : Type} (l : List α) (i j : Nat) : List α :=
  match l.get? i, l.get? j with
  | some a, some b => (l.set i b).set j a
  | _, _ => l

/-- Projects the success value of an `Except`, for stating evaluations. -/
def exOk? {α : Type} : Except String α → Option α
  | Except.ok a => some a
  | Except.error _ => none

deriving instance DecidableEq for Except

/-- Modelled from the spec: `AtomicBorrow` (src/borrow.rs is referenced from
lib.rs and blob_data.rs but missing from the sources).  §4.6: shared acquires
increment a count when no exclusive is held; exclusive acquires succeed only
when the count is zero; exclusive sets a distinct sentinel; releases decrement
or clear. -/
inductive BorrowState : Type
  | shared (n : Nat)
  | exclusive
  deriving DecidableEq, Repr

/-- Modelled from the spec: shared acquire (`AtomicBorrow::borrow`), `none`
meaning the acquire returned `false`. -/
def BorrowState.borrow : BorrowState → Option BorrowState
  | .shared n => some (.shared (n + 1))
  | .exclusive => none

/-- Modelled from the spec: exclusive acquire (`AtomicBorrow::borrow_mut`). -/
def BorrowState.borrow_mut : BorrowState → Option BorrowState
  | .shared 0 => some .exclusive
  | _ => none

/-- Modelled from the spec: `AtomicBorrow::release` decrements. -/
def BorrowState.release : BorrowState → BorrowState
  | .shared n => .shared (n - 1)
  | .exclusive => .exclusive

/-- Modelled from the spec: `AtomicBorrow::release_mut` clears. -/
def BorrowState.release_mut : BorrowState → BorrowState
  | _ => .shared 0

/-- `BlobData` (blob_data.rs): the initialized prefix of the byte buffer as a
list of values, plus the per-column borrow counter. -/
structure BlobData : Type where
  data : List Val
  borrow : BorrowState
  deriving DecidableEq, Repr

/-- `BlobData::new`. -/
def BlobData.new : BlobData := { data := [], borrow := .shared 0 }

/-- `BlobData::push_bytes`: appends one element (growth/doubling elided). -/
def BlobData.push_bytes (b : BlobData) (v : Val) : BlobData :=
  { b with data := b.data ++ [v] }

/-- `BlobData::swap_remove`: if `index` is last, pop; otherwise swap with the
last element and pop.  Returns the removed value (the popped element after the
swap).  Caller guarantees `index < len`. -/
def BlobData.swap_remove (b : BlobData) (index : Nat) : Val × BlobData :=
  if index = b.data.length - 1 then
    (b.data.getLast?.getD 0, { b with data := b.data.dropLast })
  else
    let d := listSwap b.data index (b.data.length - 1)
    (d.getLast?.getD 0, { b with data := d.dropLast })

/-- `Archetype` (archetype.rs): columns keyed by type id, the row → entity-id
back-map, the row count and the component bitmask. -/
structure Archetype : Type where
  columns : List (TypeId × BlobData)
  rows : List Nat
  count : Nat
  bitmask : Nat
  deriving DecidableEq, Repr

/-- `Archetype::new`. -/
def Archetype.new (bitmask : Nat) : Archetype :=
  { columns := [], rows := [], count := 0, bitmask }

/-- `Archetype::with` (`with` is a Lean keyword): adds an empty column for the
type if absent, otherwise does nothing. -/
def Archetype.withCol (a : Archetype) (id : TypeId) : Archetype :=
  match alLookup a.columns id with
  | some _ => a
  | none => { a with columns := a.columns ++ [(id, BlobData.new)] }

/-- `Archetype::insert_bytes`: appends to the named column when present. -/
def Archetype.insert_bytes (a : Archetype) (id : TypeId) (v : Val) : Archetype :=
  match alLookup a.columns id with
  | some column => { a with columns := alInsert a.columns id (column.push_bytes v) }
  | none => a

/-- `Archetype::insert_row`: increments `count` and appends to the back-map. -/
def Archetype.insert_row (a : Archetype) (ent : Nat) : Archetype :=
  { a with count := a.count + 1, rows := a.rows ++ [ent] }

/-- `Archetype::swap_remove`: out-of-bounds index returns `None` untouched;
otherwise each column swap-removes the row and its destructor runs on the
removed bytes (recorded in the returned drop list), then `count` decrements
and the back-map is updated: if the removed row was last, `rows.pop()`;
otherwise `rows.swap(index, count - 1)` followed by `rows.pop().unwrap()`
(the unwrap panic is the error case). -/
def Archetype.swap_remove (a : Archetype) (index : Nat) :
    Except String (Option Nat × Archetype × List (TypeId × Val)) :=
  if index ≥ a.count then Except.ok (none, a, [])
  else
    let removed := a.columns.map (fun p => (p.1, p.2.swap_remove index))
    let drops := removed.map (fun p => (p.1, p.2.1))
    let columns := removed.map (fun p => (p.1, p.2.2))
    let count := a.count - 1
    if index = count then
      Except.ok (none, { a with columns, rows := a.rows.dropLast, count }, drops)
    else
      let rows := listSwap a.rows index (count - 1)
      match rows.getLast? with
      | none => Except.error "called unwrap on None"
      | some moved =>
          Except.ok (some moved, { a with columns, rows := rows.dropLast, count }, drops)

/-- `Archetype::move_to`: like `swap_remove` but instead of dropping, each
removed value is handed to the callback `f` (which threads a state `σ`, e.g.
the target archetype).  Back-map and count maintenance are identical. -/
def Archetype.move_to {σ : Type} (a : Archetype) (index : Nat)
    (f : σ → Val → TypeId → σ) (s : σ) :
    Except String (Option Nat × Archetype × σ) :=
  if index ≥ a.count then Except.ok (none, a, s)
  else
    let step := a.columns.foldl
      (fun (acc : List (TypeId × BlobData) × σ) p =>
        let r := p.2.swap_remove index
        (acc.1 ++ [(p.1, r.2)], f acc.2 r.1 p.1))
      ([], s)
    let columns := step.1
    let count := a.count - 1
    if index = count then
      Except.ok (none, { a with columns, rows := a.rows.dropLast, count }, step.2)
    else
      let rows := listSwap a.rows index (count - 1)
      match rows.getLast? with
      | none => Except.error "called unwrap on None"
      | some moved =>
          Except.ok (some moved, { a with columns, rows := rows.dropLast, count }, step.2)

/-- `Archetype::get_bytes`: column lookup, then the value at `row` when
`count > row` (the read itself is unchecked in the source). -/
def Archetype.get_bytes (a : Archetype) (typeid : TypeId) (row : Nat) : Option Val :=
  match alLookup a.columns typeid with
  | none => none
  | some column => if a.count > row then some (column.data.getD row 0) else none

/-- `Location` (world.rs): `(archetype_index, row)`. -/
structure Location : Type where
  archetype : Nat
  row : Nat
  deriving DecidableEq, Repr

/-- `Location::EMPTY`: both fields `usize::MAX`. -/
def Location.EMPTY : Location := { archetype := USIZE_MAX, row := USIZE_MAX }

/-- `EntityMeta` (world.rs). -/
structure EntityMeta : Type where
  generation : Nat
  location : Location
  deriving DecidableEq, Repr

/-- `Entity` (world.rs): a generational handle. -/
structure Entity : Type where
  index : Nat
  generation : Nat
  deriving DecidableEq, Repr

/-- `Entities` (world.rs): the meta table and the free-list. -/
structure Entities : Type where
  metas : List EntityMeta
  free : List Nat
  deriving DecidableEq, Repr

/-- `Entities::new`. -/
def Entities.new : Entities := { metas := [], free := [] }

/-- `Entities::create`: pop a free slot (from the end of the free-list) and
reset its location to EMPTY, returning `(slot, metas[slot].generation)`;
otherwise push a fresh meta `{gen: 0, loc: EMPTY}`.  The `self.metas[slot]`
indexing panic is the error case. -/
def Entities.create (es : Entities) : Except String (Entities × Entity) :=
  match es.free.getLast? with
  | some slot =>
      match es.metas.get? slot with
      | some meta =>
          Except.ok
            ({ metas := es.metas.set slot { meta with location := Location.EMPTY }
               free := es.free.dropLast },
             { index := slot, generation := meta.generation })
      | none => Except.error "index out of bounds"
  | none =>
      Except.ok
        ({ es with metas := es.metas ++ [{ generation := 0, location := Location.EMPTY }] },
         { index := es.metas.length, generation := 0 })

/-- `CacheEntry` (world.rs). -/
structure CacheEntry : Type where
  high_water_mark : Nat
  archetypes : List Nat
  deriving DecidableEq, Repr

/-- `CacheEntry::new`. -/
def CacheEntry.new : CacheEntry := { high_water_mark := 0, archetypes := [] }

/-- `QueryCache` (world.rs): `(required, excluded) → CacheEntry`. -/
structure QueryCache : Type where
  cache : List ((Nat × Nat) × CacheEntry)
  deriving DecidableEq, Repr

/-- `QueryCache::new`. -/
def QueryCache.new : QueryCache := { cache := [] }

/-- `World` (world.rs). -/
structure World : Type where
  bitmap : List (TypeId × Nat)
  archetype_map : List (Nat × Nat)
  archetypes : List Archetype
  cache : QueryCache
  entities : Entities
  next_bitmask : Nat
  deriving DecidableEq, Repr

/-- `World::new`. -/
def World.new : World :=
  { bitmap := [], archetype_map := [], archetypes := [], cache := QueryCache.new
    entities := Entities.new, next_bitmask := 0 }

/-- `World::register_component`: returns the existing bit, or assigns
`1_u64 << next_bitmask` and increments the counter.  A shift by 64 or more
overflows `u64` and panics under Rust's checked arithmetic: the error case. -/
def World.register_component (w : World) (tid : TypeId) : Except String (World × Nat) :=
  match alLookup w.bitmap tid with
  | some bit => Except.ok (w, bit)
  | none =>
      if w.next_bitmask ≥ 64 then Except.error "attempt to shift left with overflow"
      else
        let bit := 2 ^ w.next_bitmask
        Except.ok
          ({ w with
              bitmap := alInsert w.bitmap tid bit
              next_bitmask := w.next_bitmask + 1 }, bit)

/-- `World::is_alive`: generation comparison only (the free-list is not
consulted). -/
def World.is_alive (w : World) (e : Entity) : Bool :=
  match w.entities.metas.get? e.index with
  | none => false
  | some meta => meta.generation == e.generation

/-- `World::is_empty`. -/
def World.is_empty (w : World) (e : Entity) : Bool :=
  match w.entities.metas.get? e.index with
  | none => true
  | some meta => meta.location == Location.EMPTY

/-- `World::archetype_of`. -/
def World.archetype_of (w : World) (e : Entity) : Option Archetype :=
  match w.entities.metas.get? e.index with
  | none => none
  | some meta => w.archetypes.get? meta.location.archetype

/-- `World::bit_of`. -/
def World.bit_of (w : World) (tid : TypeId) : Option Nat :=
  alLookup w.bitmap tid

/-- A bundle: the heterogeneous component tuple flattened to its
`(TypeId, value)` pairs in tuple order. -/
abbrev Bundle := List (TypeId × Val)

/-- `Bundle::register` (bundle.rs): registers every component type in order. -/
def bundleRegister (w : World) (b : Bundle) : Except String World :=
  b.foldlM (fun w p => do
    let (w, _) ← w.register_component p.1
    pure w) w

/-- `Bundle::bitmask` (bundle.rs): `bit_of::<T>().unwrap() | ... | 0`; the
unwrap panic is the error case. -/
def bundleBitmask (w : World) (b : Bundle) : Except String Nat :=
  b.foldlM (fun acc p =>
    match w.bit_of p.1 with
    | some bit => Except.ok (acc ||| bit)
    | none => Except.error "called unwrap on None") 0

/-- `Bundle::put` (bundle.rs): ensure every column exists, append every
component value, then append `row` — the *row number* handed over by
`spawn_inner`, not the entity id — to the back-map. -/
def bundlePut (b : Bundle) (row : Nat) (a : Archetype) : Archetype :=
  let a := b.foldl (fun a p => a.withCol p.1) a
  let a := b.foldl (fun a p => a.insert_bytes p.1 p.2) a
  a.insert_row row

/-- `World::spawn_inner`: create the entity, find the archetype by bitmask or
push a new one (recording `len - 1` in `archetype_map`), `bundle.put`, then
record the location. -/
def World.spawn_inner (w : World) (b : Bundle) (bitmask : Nat) :
    Except String (World × Entity) := do
  let (entities, entity) ← w.entities.create
  let w := { w with entities }
  let (w, archetype_idx) :=
    match alLookup w.archetype_map bitmask with
    | some i => (w, i)
    | none =>
        let archetypes := w.archetypes ++ [Archetype.new bitmask]
        ({ w with
            archetypes := archetypes
            archetype_map := alInsert w.archetype_map bitmask (archetypes.length - 1) },
         archetypes.length - 1)
  let archetype ← listGetE w.archetypes archetype_idx
  let row := archetype.count
  let archetype := bundlePut b row archetype
  let archetypes ← listSetE w.archetypes archetype_idx archetype
  let meta ← listGetE w.entities.metas entity.index
  let metas ← listSetE w.entities.metas entity.index
    { meta with location := { archetype := archetype_idx, row } }
  Except.ok ({ w with archetypes, entities := { w.entities with metas } }, entity)

/-- `World::spawn`: register the bundle, compute its bitmask, `spawn_inner`. -/
def World.spawn (w : World) (b : Bundle) : Except String (World × Entity) := do
  let w ← bundleRegister w b
  let bitmask ← bundleBitmask w b
  w.spawn_inner b bitmask

/-- `World::spawn_empty`. -/
def World.spawn_empty (w : World) : Except String (World × Entity) := do
  let (entities, entity) ← w.entities.create
  Except.ok ({ w with entities }, entity)

/-- `World::insert_component` (world.rs lines 91–224).  Returns the updated
world and the list of destructor invocations.  Paths: no-op when not alive;
overwrite in place when the entity's archetype already has the bit (swap the
slot with the incoming value, then invoke the destructor on the slot — which
now holds the *new* value — and `mem::forget` the old one); otherwise find or
create the target archetype (recording `archetypes.len()` *after* the push in
`archetype_map`), then either the EMPTY-entity append path or the archetypal
move via `move_to`. -/
def World.insert_component (w : World) (e : Entity) (tid : TypeId) (v : Val) :
    Except String (World × List (TypeId × Val)) := do
  if ¬ w.is_alive e then return (w, [])
  let (w, bit) ←
    match alLookup w.bitmap tid with
    | some bit => pure (w, bit)
    | none => do
        let (w, _) ← w.register_component tid
        match alLookup w.bitmap tid with
        | some bit => pure (w, bit)
        | none => Except.error "key not found in map"
  let sourceArch := w.archetype_of e
  if (sourceArch.map (fun s => s.bitmask &&& bit == bit)).getD false then
    let meta ← listGetE w.entities.metas e.index
    let src ← listGetE w.archetypes meta.location.archetype
    let column ←
      match alLookup src.columns tid with
      | some c => pure c
      | none => Except.error "called unwrap on None"
    let _old ←
      match column.data.get? meta.location.row with
      | some x => pure x
      | none => Except.error "called unwrap on None"
    -- ptr::swap_nonoverlapping: the slot now holds `v`, the local holds `old`
    let column := { column with data := column.data.set meta.location.row v }
    -- (column.type_info().drop)(ptr): destructor on the slot, which holds `v`
    let drops := [(tid, v)]
    -- mem::forget(component): `old` is leaked, its destructor never runs
    let src := { src with columns := alInsert src.columns tid column }
    let archetypes ← listSetE w.archetypes meta.location.archetype src
    return ({ w with archetypes }, drops)
  let target_bitmask :=
    match sourceArch with
    | some s => s.bitmask ||| bit
    | none => bit
  let (w, target_archetype_index) :=
    match alLookup w.archetype_map target_bitmask with
    | some i => (w, i)
    | none =>
        let archetypes := w.archetypes ++ [Archetype.new target_bitmask]
        ({ w with
            archetypes := archetypes
            archetype_map := alInsert w.archetype_map target_bitmask archetypes.length },
         archetypes.length - 1)
  if w.is_empty e then
    let target ← listGetE w.archetypes target_archetype_index
    let row := target.count
    let target := ((target.withCol tid).insert_bytes tid v).insert_row e.index
    let archetypes ← listSetE w.archetypes target_archetype_index target
    let meta ← listGetE w.entities.metas e.index
    let metas ← listSetE w.entities.metas e.index
      { meta with location := { archetype := target_archetype_index, row } }
    return ({ w with archetypes, entities := { w.entities with metas } }, [])
  let meta ← listGetE w.entities.metas e.index
  -- index2 asserts
  if meta.location.archetype = target_archetype_index then
    Except.error "assertion failed: i != j"
  if meta.location.archetype ≥ w.archetypes.length then
    Except.error "assertion failed: i < x.len()"
  if target_archetype_index ≥ w.archetypes.length then
    Except.error "assertion failed: j < x.len()"
  let src ← listGetE w.archetypes meta.location.archetype
  let target ← listGetE w.archetypes target_archetype_index
  let (moved, src, target) ←
    src.move_to meta.location.row
      (fun (t : Archetype) bytes tid2 => (t.withCol tid2).insert_bytes tid2 bytes) target
  let row := target.count
  let target := ((target.withCol tid).insert_bytes tid v).insert_row e.index
  let archetypes ← listSetE w.archetypes meta.location.archetype src
  let archetypes ← listSetE archetypes target_archetype_index target
  let w := { w with archetypes }
  let w ←
    match moved with
    | some m => do
        let oldMeta ← listGetE w.entities.metas e.index
        let movedMeta ← listGetE w.entities.metas m
        let metas ← listSetE w.entities.metas m
          { movedMeta with location :=
              { archetype := oldMeta.location.archetype, row := oldMeta.location.row } }
        pure { w with entities := { w.entities with metas } }
    | none => pure w
  let meta2 ← listGetE w.entities.metas e.index
  let metas ← listSetE w.entities.metas e.index
    { meta2 with location := { archetype := target_archetype_index, row } }
  return ({ w with entities := { w.entities with metas } }, [])

/-- `World::has_component`. -/
def World.has_component (w : World) (tid : TypeId) (e : Entity) : Bool :=
  match w.archetype_of e with
  | none => false
  | some src =>
      match w.bit_of tid with
      | none => false
      | some bit => src.bitmask &&& bit != 0

/-- `World::remove_component` (world.rs lines 241–322).  No-op when not alive,
EMPTY, the type unknown, or the bit not set.  When `combined == 0` the source
archetype swap-removes the row (dropping all components) and the entity's
location becomes EMPTY — the returned moved entity is discarded.  Otherwise
`move_to` routes every value (dropping the removed type, transferring the
rest), the entity is appended to the target, the moved entity's location is
fixed, and the entity's location is updated. -/
def World.remove_component (w : World) (tid : TypeId) (e : Entity) :
    Except String (World × List (TypeId × Val)) := do
  if ¬ w.is_alive e ∨ w.is_empty e then return (w, [])
  match alLookup w.bitmap tid with
  | none => return (w, [])
  | some bit =>
  match w.archetype_of e with
  | none => return (w, [])
  | some src0 =>
  if src0.bitmask &&& bit != bit then return (w, [])
  let combined_bitmask := src0.bitmask &&& (U64MASK ^^^ bit)
  if combined_bitmask = 0 then
    let meta ← listGetE w.entities.metas e.index
    let src ← listGetE w.archetypes meta.location.archetype
    let (_moved, src, drops) ← src.swap_remove meta.location.row
    let archetypes ← listSetE w.archetypes meta.location.archetype src
    let metas ← listSetE w.entities.metas e.index
      { meta with location := Location.EMPTY }
    return ({ w with archetypes, entities := { w.entities with metas } }, drops)
  let (w, target_archetype_index) :=
    match alLookup w.archetype_map combined_bitmask with
    | some i => (w, i)
    | none =>
        let archetypes := w.archetypes ++ [Archetype.new combined_bitmask]
        ({ w with
            archetypes := archetypes
            archetype_map := alInsert w.archetype_map combined_bitmask (archetypes.length - 1) },
         archetypes.length - 1)
  let meta ← listGetE w.entities.metas e.index
  -- index2 asserts
  if meta.location.archetype = target_archetype_index then
    Except.error "assertion failed: i != j"
  if meta.location.archetype ≥ w.archetypes.length then
    Except.error "assertion failed: i < x.len()"
  if target_archetype_index ≥ w.archetypes.length then
    Except.error "assertion failed: j < x.len()"
  let src ← listGetE w.archetypes meta.location.archetype
  let target ← listGetE w.archetypes target_archetype_index
  let (moved, src, tl) ←
    src.move_to meta.location.row
      (fun (acc : Archetype × List (TypeId × Val)) bytes tid2 =>
        if tid2 = tid then (acc.1, acc.2 ++ [(tid2, bytes)])
        else ((acc.1.withCol tid2).insert_bytes tid2 bytes, acc.2))
      (target, [])
  let target := tl.1.insert_row e.index
  let archetypes ← listSetE w.archetypes meta.location.archetype src
  let archetypes ← listSetE archetypes target_archetype_index target
  let w := { w with archetypes }
  let w ←
    match moved with
    | some m => do
        let oldMeta ← listGetE w.entities.metas e.index
        let movedMeta ← listGetE w.entities.metas m
        let metas ← listSetE w.entities.metas m
          { movedMeta with location :=
              { archetype := oldMeta.location.archetype, row := oldMeta.location.row } }
        pure { w with entities := { w.entities with metas } }
    | none => pure w
  let meta2 ← listGetE w.entities.metas e.index
  let metas ← listSetE w.entities.metas e.index
    { meta2 with location := { archetype := target_archetype_index, row := target.count - 1 } }
  return ({ w with entities := { w.entities with metas } }, tl.2)

/-- `World::get_component`. -/
def World.get_component (w : World) (tid : TypeId) (e : Entity) : Option Val :=
  if ¬ w.is_alive e then none
  else
    match w.entities.metas.get? e.index with
    | none => none
    | some meta =>
        match w.archetypes.get? meta.location.archetype with
        | none => none
        | some archetype => archetype.get_bytes tid meta.location.row

/-- `World::despawn_entity` (world.rs lines 353–378): no-op when the meta is
missing or the entity is not alive or its archetype index resolves to no
archetype; otherwise swap-remove the row, relocate the moved entity to the
despawned entity's old location, bump the generation, reset the location to
EMPTY and push the index onto the free-list.  Returns the drop events. -/
def World.despawn_entity (w : World) (e : Entity) :
    Except String (World × List (TypeId × Val)) := do
  match w.entities.metas.get? e.index with
  | none => return (w, [])
  | some meta =>
  let location := meta.location
  if ¬ w.is_alive e then return (w, [])
  match w.archetypes.get? location.archetype with
  | none => return (w, [])
  | some archetype =>
  let (moved, archetype, drops) ← archetype.swap_remove location.row
  let archetypes ← listSetE w.archetypes location.archetype archetype
  let w := { w with archetypes }
  let w ←
    match moved with
    | some m => do
        let movedMeta ← listGetE w.entities.metas m
        let metas ← listSetE w.entities.metas m { movedMeta with location }
        pure { w with entities := { w.entities with metas } }
    | none => pure w
  let meta2 ← listGetE w.entities.metas e.index
  let metas ← listSetE w.entities.metas e.index
    { generation := meta2.generation + 1, location := Location.EMPTY }
  return ({ w with entities := { metas, free := w.entities.free ++ [e.index] } }, drops)

/-- The matching rule of query.rs:
`(mask & required) == required && (mask & excluded) == 0`. -/
def maskMatches (mask req exc : Nat) : Bool :=
  (mask &&& req == req) && (mask &&& exc == 0)

/-- The cache-entry update loop that `QueryState::prepare` and
`for_each_chunk` both perform (query.rs lines 284–297 and 327–339, and the
tuple macro): when the archetype count exceeds the cached high-water mark,
scan the tail `high_water_mark..len`, push each matching index, and set the
mark to the archetype count. -/
def cacheUpdateEntry (archetypes : List Archetype) (entry : CacheEntry)
    (req exc : Nat) : CacheEntry :=
  let len := archetypes.length
  if entry.high_water_mark < len then
    { high_water_mark := len
      archetypes := entry.archetypes ++
        ((List.range' entry.high_water_mark (len - entry.high_water_mark)).filter
          (fun i => maskMatches ((archetypes.getD i (Archetype.new 0)).bitmask) req exc)) }
  else entry

/-- The QueryCache invariant of spec §3: the matched list holds exactly the
archetype indices below the high-water mark whose bitmask passes the required
and excluded masks. -/
def entryInv (archetypes : List Archetype) (entry : CacheEntry) (req exc : Nat) : Prop :=
  entry.high_water_mark ≤ archetypes.length ∧
  entry.archetypes = (List.range entry.high_water_mark).filter
    (fun i => maskMatches ((archetypes.getD i (Archetype.new 0)).bitmask) req exc)

/-- Fetch atoms of a query (query.rs `Fetch` impls): shared read `&T`,
exclusive read `&mut T`, and the entity fetch (which takes no borrow). -/
inductive FetchAtom : Type
  | read (tid : TypeId)
  | write (tid : TypeId)
  | entity
  deriving DecidableEq, Repr

/-- Applies `g` to the borrow counter of the column keyed `t` (the source
mutates the `AtomicBorrow` through a shared `&Archetype`).  The source never
creates two columns with one key, so at most one entry is affected. -/
def colModify (cols : List (TypeId × BlobData)) (t : TypeId)
    (g : BorrowState → BorrowState) : List (TypeId × BlobData) :=
  cols.map (fun p => if p.1 = t then (p.1, { p.2 with borrow := g p.2.borrow }) else p)

/-- Borrow-counter update on an archetype's column. -/
def Archetype.modifyBorrow (a : Archetype) (t : TypeId) (g : BorrowState → BorrowState) :
    Archetype :=
  { a with columns := colModify a.columns t g }

/-- One fetch atom's `access_slice` borrow acquisition as used by the tuple
`for_each_chunk` (query.rs): a missing column panics with "Archetype matches
mask but missing column", a failed borrow panics with "Conflicting
queries". -/
def acquireAtom (fa : FetchAtom) (a : Archetype) : Except String Archetype :=
  match fa with
  | .entity => Except.ok a
  | .read t =>
      match alLookup a.columns t with
      | none => Except.error "Archetype matches mask but missing column"
      | some c =>
          match c.borrow.borrow with
          | none => Except.error "Conflicting queries"
          | some b => Except.ok (a.modifyBorrow t (fun _ => b))
  | .write t =>
      match alLookup a.columns t with
      | none => Except.error "Archetype matches mask but missing column"
      | some c =>
          match c.borrow.borrow_mut with
          | none => Except.error "Conflicting queries"
          | some b => Except.ok (a.modifyBorrow t (fun _ => b))

/-- The tuple `for_each_chunk` acquires each fetch's slice in order. -/
def acquireSlices : List FetchAtom → Archetype → Except String Archetype
  | [], a => Except.ok a
  | fa :: rest, a => (acquireAtom fa a).bind (acquireSlices rest)

/-- One fetch atom's `Fetch::release` (query.rs): release the column's borrow
when the column exists, do nothing otherwise; the entity fetch releases
nothing. -/
def releaseAtom (fa : FetchAtom) (a : Archetype) : Archetype :=
  match fa with
  | .entity => a
  | .read t =>
      match alLookup a.columns t with
      | none => a
      | some _ => a.modifyBorrow t BorrowState.release
  | .write t =>
      match alLookup a.columns t with
      | none => a
      | some _ => a.modifyBorrow t BorrowState.release_mut

/-- `QueryState::release` for a tuple: release every fetch atom in order. -/
def releaseAtoms : List FetchAtom → Archetype → Archetype
  | [], a => a
  | fa :: rest, a => releaseAtoms rest (releaseAtom fa a)

/-- `Q::release` applied to the archetype at index `i`. -/
def releaseArchAt (fetches : List FetchAtom) (archs : List Archetype) (i : Nat) :
    List Archetype :=
  match archs.get? i with
  | none => archs
  | some a => archs.set i (releaseAtoms fetches a)

/-- One fetch atom's `access_chunk` as used by the tuple `create_iter`
(query.rs): a missing column makes `access_chunk` return `None` (the `?` in
`create_iter` then aborts iterator creation while earlier atoms keep their
borrows); a failed borrow panics. -/
def accessChunkAtom (fa : FetchAtom) (a : Archetype) : Except String (Option Archetype) :=
  match fa with
  | .entity => Except.ok (some a)
  | .read t =>
      match alLookup a.columns t with
      | none => Except.ok none
      | some c =>
          match c.borrow.borrow with
          | none => Except.error "Conflicting queries"
          | some b => Except.ok (some (a.modifyBorrow t (fun _ => b)))
  | .write t =>
      match alLookup a.columns t with
      | none => Except.ok none
      | some c =>
          match c.borrow.borrow_mut with
          | none => Except.error "Conflicting queries"
          | some b => Except.ok (some (a.modifyBorrow t (fun _ => b)))

/-- The tuple `create_iter`: acquire each atom's chunk in order; the first
`None` aborts (returning `false` with the partial acquisitions kept, exactly
as the `?` operator leaves the earlier `AtomicBorrow` increments in place). -/
def createIterAtoms : List FetchAtom → Archetype → Except String (Bool × Archetype)
  | [], a => Except.ok (true, a)
  | fa :: rest, a =>
      (accessChunkAtom fa a).bind (fun r =>
        match r with
        | none => Except.ok (false, a)
        | some a2 => createIterAtoms rest a2)

/-- The observable state of a `QueryIter` (query.rs): the remaining cached
indices, the current chunk iterator (next position and chunk length, `none`
when `current_iter` is `None`), and the current archetype index. -/
structure IterState : Type where
  indices : List Nat
  currentIter : Option (Nat × Nat)
  currentArch : Option Nat
  deriving DecidableEq, Repr

/-- The index-scanning part of `Iterator::next`'s loop: pop the next cached
index (panicking indexing into the archetype slice is the error case), skip
empty archetypes, `create_iter` on the first non-empty one.  When creation
succeeds the loop comes back to the top and yields row 0; when `create_iter`
returns `None` the loop finds `current_iter == None`, releases the archetype
it just entered and continues — inlined here as the immediate release. -/
def queryScan (fetches : List FetchAtom) :
    List Archetype → List Nat → Except String (Option Nat × List Archetype × IterState)
  | archs, [] =>
      Except.ok (none, archs, { indices := [], currentIter := none, currentArch := none })
  | archs, i :: rest =>
      (listGetE archs i).bind (fun arch =>
        if arch.count = 0 then queryScan fetches archs rest
        else
          (createIterAtoms fetches arch).bind (fun cr =>
            (listSetE archs i cr.2).bind (fun archs2 =>
              if cr.1 then
                Except.ok (some 0, archs2,
                  { indices := rest, currentIter := some (1, cr.2.count),
                    currentArch := some i })
              else
                queryScan fetches (releaseArchAt fetches archs2 i) rest)))

/-- `Iterator::next` for `QueryIter` (query.rs lines 183–208): pull from the
current chunk if it still has items; otherwise release the current archetype
(if any) and scan the remaining indices.  Yields the row position within the
current archetype. -/
def queryNext (fetches : List FetchAtom) (archs : List Archetype) (st : IterState) :
    Except String (Option Nat × List Archetype × IterState) :=
  match st.currentIter with
  | some pl =>
      if pl.1 < pl.2 then
        Except.ok (some pl.1, archs, { st with currentIter := some (pl.1 + 1, pl.2) })
      else
        queryScan fetches
          (match st.currentArch with
           | some i => releaseArchAt fetches archs i
           | none => archs) st.indices
  | none =>
      queryScan fetches
        (match st.currentArch with
         | some i => releaseArchAt fetches archs i
         | none => archs) st.indices

/-- `QueryIter` has no `Drop` implementation anywhere in the sources, so
dropping the iterator runs no code: the archetypes and their borrow counters
are left exactly as they are. -/
def dropIter (archs : List Archetype) (_st : IterState) : List Archetype := archs

/-- `QueryState::prepare` (query.rs): look up or create the cache entry for
the `(required, excluded)` key, extend it with the tail scan
(`cacheUpdateEntry`), and hand the matched indices to a fresh `QueryIter`
with no current archetype and no borrows held. -/
def prepare (archetypes : List Archetype) (cache : QueryCache) (req exc : Nat) :
    QueryCache × IterState :=
  let entry := (alLookup cache.cache (req, exc)).getD CacheEntry.new
  let entry := cacheUpdateEntry archetypes entry req exc
  ({ cache := alInsert cache.cache (req, exc) entry },
   { indices := entry.archetypes, currentIter := none, currentArch := none })

/-- Counterexample scenario for C6: one archetype with one column (type 0,
one row), all borrow counters free. -/
def c6_archs : List Archetype :=
  [{ columns := [(0, { data := [42], borrow := .shared 0 })]
     rows := [7], count := 1, bitmask := 1 }]

/-- A fresh iterator over the single cached index 0. -/
def c6_st0 : IterState := { indices := [0], currentIter := none, currentArch := none }

/-- Witness archetype for C6: two free columns. -/
def c6_arch_w : Archetype :=
  { columns := [(0, { data := [3], borrow := .shared 0 })
                , (1, { data := [4], borrow := .shared 0 })]
    rows := [0], count := 1, bitmask := 3 }

/-- `c6_arch_w` after acquiring a shared read of column 0 and an exclusive
read of column 1. -/
def c6_arch_w2 : Archetype :=
  { columns := [(0, { data := [3], borrow := .shared 1 })
                , (1, { data := [4], borrow := .exclusive })]
    rows := [0], count := 1, bitmask := 3 }

/-- The back-map invariant of spec §8.1, decided on the embedded world: for a
live entity either its location is EMPTY or the back-map entry at its recorded
location is its entity id. -/
def World.backmapOk (w : World) (e : Entity) : Bool :=
  if w.is_alive e then
    match w.entities.metas.get? e.index with
    | none => true
    | some meta =>
        if meta.location = Location.EMPTY then true
        else
          match w.archetypes.get? meta.location.archetype with
          | none => false
          | some a => a.rows.get? meta.location.row == some e.index
  else true

/-- The archetype-lookup invariant, decided on the embedded world: every
existing archetype's bitmask maps to that archetype's index. -/
def World.archetypeMapOk (w : World) : Bool :=
  (List.range w.archetypes.length).all (fun i =>
    alLookup w.archetype_map ((w.archetypes.getD i (Archetype.new 0)).bitmask) == some i)

/-- C1 trace: spawn an entity with component 0 (value 5), then spawn a second
entity with component 1 (value 6). -/
def c1_trace : Except String (World × Entity) := do
  let (w, _) ← World.new.spawn [(0, 5)]
  w.spawn [(1, 6)]

/-- C3 trace: spawn an empty entity, then insert component 0 (value 9) into
it, which creates the archetype of bitmask 1. -/
def c3_trace : Except String World := do
  let (w, e) ← World.new.spawn_empty
  let (w, _) ← w.insert_component e 0 9
  pure w

/-- C4 trace: spawn two entities with component 0 into the same archetype,
then remove component 0 (the only component) from the first. -/
def c4_trace : Except String World := do
  let (w, _) ← World.new.spawn [(0, 10)]
  let (w, _) ← w.spawn [(0, 20)]
  let (w, _) ← w.remove_component 0 (Entity.mk 0 0)
  pure w

/-- C5 trace: spawn an entity with component 0 = 10, then insert component
0 = 77 into it (the overwrite-in-place path). -/
def c5_trace : Except String (World × List (TypeId × Val)) := do
  let (w, e) ← World.new.spawn [(0, 10)]
  w.insert_component e 0 77

/-- Driver for C7: registers a sequence of component types one after the
other via `World::register_component`. -/
def registerSeq : World → List TypeId → Except String World
  | w, [] => Except.ok w
  | w, t :: rest => (w.register_component t).bind (fun p => registerSeq p.1 rest)

/-- Concrete archetype for exercising `swap_remove`: one column with values
`[10, 20]`, back-map `[5, 7]` (entity ids), count 2. -/
def c2_arch : Archetype :=
  { columns := [(0, { data := [10, 20], borrow := .shared 0 })]
    rows := [5, 7], count := 2, bitmask := 1 }

/-- C2: `swap_remove(0)` on an archetype with back-map `[5, 7]` must leave
`rows[0] = 7` (the entity previously in the last row).  The code swaps the
back-map at `count - 1` instead of `count` after the decrement, so the swap is
a self-swap and the pop leaves `rows = [5]`: the removed entity id stays in the
back-map while the moved entity id 7 is returned.  The columns and the return
value are correct, the back-map entry is not. -/
theorem c2_swap_remove_backmap_stale :
    c2_arch.swap_remove 0
      = Except.ok (some 7,
          { columns := [(0, { data := [20], borrow := .shared 0 })]
            rows := [5], count := 1, bitmask := 1 },
          [(0, 10)])
    ∧ ([5] : List Nat).get? 0 ≠ some 7 := by decide

/-- C1: after spawning entity 0 with component 0 and entity 1 with component
1, entity `(1, 0)` is live with recorded location `(archetype 1, row 0)`, yet
`archetypes[1].rows[0] = 0 ≠ 1`: `spawn` hands `Bundle::put` the row number
instead of the entity id for the back-map, so the invariant fails after two
ordinary spawns. -/
theorem c1_backmap_invariant_fails :
    (exOk? c1_trace).map (fun p =>
        (p.2, World.backmapOk p.1 p.2,
         (p.1.entities.metas.getD p.2.index (EntityMeta.mk 0 Location.EMPTY)).location,
         (p.1.archetypes.getD 1 (Archetype.new 0)).rows))
      = some (Entity.mk 1 0, false, Location.mk 1 0, [0]) := by decide

/-- C3: after `spawn_empty` followed by `insert_component` of component 0, the
single archetype (bitmask 1) lives at index 0 but `archetype_map` records
index 1 — `insert_component` inserts `archetypes.len()` measured *after* the
push instead of `len() - 1` — so the lookup-map invariant fails. -/
theorem c3_archetype_map_off_by_one :
    (exOk? c3_trace).map (fun w =>
        (World.archetypeMapOk w, w.archetypes.length, alLookup w.archetype_map 1,
         (w.archetypes.getD 0 (Archetype.new 0)).bitmask))
      = some (false, 1, some 1, 1) := by decide

/-- C4: after removing the last component of entity 0 (row 0 of a 2-row
archetype), entity 1 — which `swap_remove` reports as moved into row 0 — keeps
its stale location `(0, 1)` instead of `(0, 0)`, because `remove_component`
discards the return value of `swap_remove` on the `combined == 0` path; the
removed entity's location does become EMPTY and the archetype count drops
to 1. -/
theorem c4_swapped_in_location_not_updated :
    (exOk? c4_trace).map (fun w =>
        ((w.entities.metas.getD 1 (EntityMeta.mk 0 Location.EMPTY)).location,
         (w.entities.metas.getD 0 (EntityMeta.mk 0 Location.EMPTY)).location,
         (w.archetypes.getD 0 (Archetype.new 0)).count))
      = some (Location.mk 0 1, Location.EMPTY, 1)
    ∧ Location.mk 0 1 ≠ Location.mk 0 0 := by decide

/-- C5: overwriting component 0 = 10 with 77 leaves 77 in the slot (and
`get_component` returns 77), but the destructor event list is `[(0, 77)]`:
the code swaps first and then invokes the destructor on the slot, which holds
the *new* value, while the old value 10 is `mem::forget`-ten and never
dropped. -/
theorem c5_overwrite_drops_new_value :
    (exOk? c5_trace).map (fun p => (p.2, p.1.get_component 0 (Entity.mk 0 0)))
      = some ([(0, 77)], some 77)
    ∧ ([((0 : TypeId), (77 : Val))] : List (TypeId × Val)) ≠ [(0, 10)] := by decide

/-- C10: `Archetype::swap_remove(index)` and `Archetype::move_to(index, f)`
with `index ≥ count` return `None` without panicking, leave the archetype
unchanged, and `move_to` never invokes its callback (the callback state `s` is
returned untouched for every `f`). -/
theorem c10_out_of_bounds_noop {σ : Type} (a : Archetype) (i : Nat) (h : a.count ≤ i)
    (f : σ → Val → TypeId → σ) (s : σ) :
    a.swap_remove i = Except.ok (none, a, []) ∧ a.move_to i f s = Except.ok (none, a, s) := by
  constructor
  · unfold Archetype.swap_remove
    rw [if_pos h]
  · unfold Archetype.move_to
    rw [if_pos h]

theorem alLookup_alInsert_self {κ α : Type} [DecidableEq κ] (l : List (κ × α)) (k : κ) (v : α) :
    alLookup (alInsert l k v) k = some v := by
  induction l with
  | nil => simp [alInsert, alLookup]
  | cons p rest ih =>
      by_cases h : p.1 = k
      · simp [alInsert, h, alLookup]
      · simp [alInsert, h, alLookup, ih]

theorem alLookup_alInsert_ne {κ α : Type} [DecidableEq κ] (l : List (κ × α)) (k k' : κ) (v : α)
    (h : k' ≠ k) : alLookup (alInsert l k v) k' = alLookup l k' := by
  induction l with
  | nil => simp [alInsert, alLookup, Ne.symm h]
  | cons p rest ih =>
      by_cases hp : p.1 = k
      · subst hp
        simp [alInsert, alLookup, Ne.symm h]
      · simp [alInsert, hp, alLookup, ih]

theorem register_component_fresh (w : World) (t : TypeId)
    (h1 : alLookup w.bitmap t = none) (h2 : w.next_bitmask < 64) :
    w.register_component t
      = Except.ok
          ({ w with
              bitmap := alInsert w.bitmap t (2 ^ w.next_bitmask)
              next_bitmask := w.next_bitmask + 1 }, 2 ^ w.next_bitmask) := by
  unfold World.register_component
  rw [h1]
  simp only [ge_iff_le]
  rw [if_neg (by omega)]

theorem registerSeq_fresh (tids : List TypeId) :
    ∀ (w : World), tids.Nodup →
      (∀ t ∈ tids, alLookup w.bitmap t = none) →
      w.next_bitmask + tids.length ≤ 64 →
      ∃ w', registerSeq w tids = Except.ok w' ∧
        w'.next_bitmask = w.next_bitmask + tids.length ∧
        (∀ t b, alLookup w.bitmap t = some b → alLookup w'.bitmap t = some b) ∧
        (∀ i (hi : i < tids.length),
          alLookup w'.bitmap (tids.get ⟨i, hi⟩) = some (2 ^ (w.next_bitmask + i))) ∧
        (∀ t, alLookup w'.bitmap t ≠ none → alLookup w.bitmap t ≠ none ∨ t ∈ tids) := by
  induction tids with
  | nil =>
      intro w _ _ _
      refine ⟨w, rfl, by simp, fun t b h => h, fun i hi => absurd hi (Nat.not_lt_zero i),
        fun t h => Or.inl h⟩
  | cons t rest ih =>
      intro w hnd hfresh hlen
      have hhead : alLookup w.bitmap t = none := hfresh t (List.mem_cons_self t rest)
      have h64 : w.next_bitmask < 64 := by
        simp only [List.length_cons] at hlen; omega
      have hstep := register_component_fresh w t hhead h64
      have hne : ∀ t2 ∈ rest, t2 ≠ t := by
        intro t2 ht2 he
        exact (List.nodup_cons.mp hnd).1 (he ▸ ht2)
      have hfresh1 : ∀ t2 ∈ rest,
          alLookup (alInsert w.bitmap t (2 ^ w.next_bitmask)) t2 = none := by
        intro t2 ht2
        rw [alLookup_alInsert_ne _ _ _ _ (hne t2 ht2)]
        exact hfresh t2 (List.mem_cons_of_mem t ht2)
      obtain ⟨w', hw', hnext, hpres, hget, hdom⟩ :=
        ih ({ w with
                bitmap := alInsert w.bitmap t (2 ^ w.next_bitmask)
                next_bitmask := w.next_bitmask + 1 })
          (List.nodup_cons.mp hnd).2 hfresh1
          (by simp only [List.length_cons] at hlen ⊢; omega)
      refine ⟨w', ?_, ?_, ?_, ?_, ?_⟩
      · simp only [registerSeq, hstep, Except.bind, hw']
      · simp only [hnext, List.length_cons]; omega
      · intro t2 b hb
        apply hpres
        have ht2 : t2 ≠ t := by
          intro he
          rw [he, hhead] at hb
          exact Option.noConfusion hb
        rw [alLookup_alInsert_ne _ _ _ _ ht2]
        exact hb
      · intro i hi
        match i with
        | 0 =>
            have h0 : alLookup (alInsert w.bitmap t (2 ^ w.next_bitmask)) t
                = some (2 ^ w.next_bitmask) := alLookup_alInsert_self _ _ _
            simpa using hpres t _ h0
        | Nat.succ j =>
            have hj : j < rest.length := by
              simp only [List.length_cons] at hi; omega
            have h2 := hget j hj
            have hx : ({ w with
                    bitmap := alInsert w.bitmap t (2 ^ w.next_bitmask)
                    next_bitmask := w.next_bitmask + 1 } : World).next_bitmask + j
                = w.next_bitmask + (j + 1) := by
              show w.next_bitmask + 1 + j = w.next_bitmask + (j + 1)
              omega
            rw [hx] at h2
            simpa using h2
      · intro t2 h2
        rcases hdom t2 h2 with h3 | h3
        · by_cases he : t2 = t
          · exact Or.inr (he ▸ List.mem_cons_self t rest)
          · rw [alLookup_alInsert_ne _ _ _ _ he] at h3
            exact Or.inl h3
        · exact Or.inr (List.mem_cons_of_mem t h3)

theorem registerSeq_append (l1 l2 : List TypeId) :
    ∀ w, registerSeq w (l1 ++ l2)
      = (registerSeq w l1).bind (fun w1 => registerSeq w1 l2) := by
  induction l1 with
  | nil => intro w; rfl
  | cons t rest ih =>
      intro w
      show (w.register_component t).bind (fun p => registerSeq p.1 (rest ++ l2))
        = ((w.register_component t).bind (fun p => registerSeq p.1 rest)).bind
            (fun w1 => registerSeq w1 l2)
      cases w.register_component t with
      | error e => rfl
      | ok p => exact ih p.1

/-- C7: registering up to 64 pairwise distinct component types from a fresh
world succeeds, the i-th type receiving bit `1 << i` so that all assigned bits
are pairwise distinct; registering a 65th distinct type hits the
`1_u64 << 64` shift overflow and panics. -/
theorem c7_register_limit (tids : List TypeId) (hnd : tids.Nodup) :
    (tids.length ≤ 64 →
      ∃ w, registerSeq World.new tids = Except.ok w ∧
        (∀ i (hi : i < tids.length),
          alLookup w.bitmap (tids.get ⟨i, hi⟩) = some (2 ^ i)) ∧
        (∀ i j (hi : i < tids.length) (hj : j < tids.length), i ≠ j →
          alLookup w.bitmap (tids.get ⟨i, hi⟩) ≠ alLookup w.bitmap (tids.get ⟨j, hj⟩)))
    ∧ (tids.length = 65 →
        registerSeq World.new tids
          = Except.error "attempt to shift left with overflow") := by
  constructor
  · intro hlen
    obtain ⟨w, hw, _, _, hget, _⟩ :=
      registerSeq_fresh tids World.new hnd (fun t _ => rfl)
        (by simpa [World.new] using hlen)
    have hget' : ∀ i (hi : i < tids.length),
        alLookup w.bitmap (tids.get ⟨i, hi⟩) = some (2 ^ i) := by
      intro i hi
      have := hget i hi
      simpa [World.new] using this
    refine ⟨w, hw, hget', ?_⟩
    intro i j hi hj hij
    rw [hget' i hi, hget' j hj]
    intro he
    exact hij (Nat.pow_right_injective (by norm_num) (Option.some_inj.mp he))
  · intro hlen
    have hsplit : tids = tids.take 64 ++ tids.drop 64 := (List.take_append_drop 64 tids).symm
    have htake : (tids.take 64).length = 64 := by
      rw [List.length_take, hlen]
      omega
    have hndtake : (tids.take 64).Nodup := hnd.sublist (List.take_sublist 64 tids)
    obtain ⟨w64, hw64, hnext64, _, _, hdom64⟩ :=
      registerSeq_fresh (tids.take 64) World.new hndtake (fun t _ => rfl)
        (by simp [World.new, htake])
    have hdlen : (tids.drop 64).length = 1 := by
      rw [List.length_drop, hlen]
    obtain ⟨a, ha⟩ := List.length_eq_one.mp hdlen
    have hfresh64 : alLookup w64.bitmap a = none := by
      by_contra hcon
      rcases hdom64 a hcon with h3 | h3
      · exact h3 rfl
      · have hdisj := List.disjoint_of_nodup_append (hsplit ▸ hnd)
        exact hdisj h3 (ha ▸ List.mem_cons_self a [])
    have h64eq : w64.next_bitmask = 64 := by
      rw [hnext64, htake]
      rfl
    have hreg : w64.register_component a
        = Except.error "attempt to shift left with overflow" := by
      unfold World.register_component
      rw [hfresh64]
      simp only [ge_iff_le]
      rw [if_pos (by omega)]
    calc registerSeq World.new tids
        = registerSeq World.new (tids.take 64 ++ tids.drop 64) := by rw [← hsplit]
      _ = (registerSeq World.new (tids.take 64)).bind
            (fun w1 => registerSeq w1 (tids.drop 64)) := registerSeq_append _ _ _
      _ = registerSeq w64 (tids.drop 64) := by rw [hw64]; rfl
      _ = Except.error "attempt to shift left with overflow" := by
          rw [ha]
          simp only [registerSeq, hreg, Except.bind]

/-- C9: the cache update performed by `QueryState::prepare` and
`for_each_chunk` preserves the QueryCache invariant under the append-only
growth of the archetype list: if an entry is exact for a prefix `archs`, then
after the update against `archs ++ ext` the matched list is exactly the
matching indices below the new high-water mark, and the mark equals the number
of archetypes examined (all of them). -/
theorem c9_cache_entry_exact (archs ext : List Archetype) (entry : CacheEntry)
    (req exc : Nat) (h : entryInv archs entry req exc) :
    entryInv (archs ++ ext) (cacheUpdateEntry (archs ++ ext) entry req exc) req exc
    ∧ (cacheUpdateEntry (archs ++ ext) entry req exc).high_water_mark
        = (archs ++ ext).length := by
  obtain ⟨hle, harch⟩ := h
  have hlen : archs.length ≤ (archs ++ ext).length := by
    simp [List.length_append]
  have hle2 : entry.high_water_mark ≤ (archs ++ ext).length := le_trans hle hlen
  have hcong : (List.range entry.high_water_mark).filter
        (fun i => maskMatches ((archs.getD i (Archetype.new 0)).bitmask) req exc)
      = (List.range entry.high_water_mark).filter
        (fun i => maskMatches (((archs ++ ext).getD i (Archetype.new 0)).bitmask) req exc) := by
    apply List.filter_congr
    intro i hi
    have hia : i < archs.length := lt_of_lt_of_le (List.mem_range.mp hi) hle
    rw [List.getD_append _ _ _ _ hia]
  by_cases hlt : entry.high_water_mark < (archs ++ ext).length
  · simp only [cacheUpdateEntry]
    rw [if_pos hlt]
    refine ⟨⟨le_refl _, ?_⟩, rfl⟩
    rw [harch, hcong, ← List.filter_append]
    have hr : List.range entry.high_water_mark ++
          List.range' entry.high_water_mark ((archs ++ ext).length - entry.high_water_mark)
        = List.range (archs ++ ext).length := by
      rw [List.range_eq_range', List.range_eq_range']
      have h2 := List.range'_append_1 0 entry.high_water_mark
        ((archs ++ ext).length - entry.high_water_mark)
      rw [Nat.zero_add] at h2
      rw [h2]
      congr 1
      omega
    rw [hr]
  · have heq : entry.high_water_mark = (archs ++ ext).length :=
      le_antisymm hle2 (not_lt.mp hlt)
    simp only [cacheUpdateEntry]
    rw [if_neg hlt]
    exact ⟨⟨hle2, harch.trans hcong⟩, heq⟩

/-- Witness for C9: an exact entry (mark 1, matched `[0]`) for the query key
`(required 1, excluded 2)` over one archetype, updated after two more
archetypes appear. -/
theorem c9_witness :
    entryInv ([Archetype.new 1] ++ [Archetype.new 2, Archetype.new 3])
      (cacheUpdateEntry ([Archetype.new 1] ++ [Archetype.new 2, Archetype.new 3])
        (CacheEntry.mk 1 [0]) 1 2) 1 2
    ∧ (cacheUpdateEntry ([Archetype.new 1] ++ [Archetype.new 2, Archetype.new 3])
        (CacheEntry.mk 1 [0]) 1 2).high_water_mark
      = ([Archetype.new 1] ++ [Archetype.new 2, Archetype.new 3]).length :=
  c9_cache_entry_exact [Archetype.new 1] [Archetype.new 2, Archetype.new 3]
    (CacheEntry.mk 1 [0]) 1 2 (by constructor <;> decide)

/-- Witness for C7: the 64 types `0..63` all register from a fresh world,
and the types `0..64` (65 distinct types) hit the shift-overflow panic. -/
theorem c7_witness :
    (∃ w, registerSeq World.new (List.range 64) = Except.ok w)
    ∧ registerSeq World.new (List.range 65)
        = Except.error "attempt to shift left with overflow" := by
  constructor
  · obtain ⟨w, hw, _, _⟩ :=
      (c7_register_limit (List.range 64) (List.nodup_range 64)).1 (by simp)
    exact ⟨w, hw⟩
  · exact (c7_register_limit (List.range 65) (List.nodup_range 65)).2 (by simp)

theorem insert_component_not_alive (w : World) (e : Entity) (tid : TypeId) (v : Val)
    (h : w.is_alive e = false) : w.insert_component e tid v = Except.ok (w, []) := by
  simp [World.insert_component, h, pure, Except.pure]

theorem remove_component_not_alive (w : World) (e : Entity) (tid : TypeId)
    (h : w.is_alive e = false) : w.remove_component tid e = Except.ok (w, []) := by
  simp [World.remove_component, h, pure, Except.pure]

theorem despawn_entity_not_alive (w : World) (e : Entity)
    (h : w.is_alive e = false) : w.despawn_entity e = Except.ok (w, []) := by
  unfold World.despawn_entity
  cases hm : w.entities.metas.get? e.index with
  | none => rfl
  | some meta => simp [h, pure, Except.pure]

theorem get_component_not_alive (w : World) (e : Entity) (tid : TypeId)
    (h : w.is_alive e = false) : w.get_component tid e = none := by
  simp [World.get_component, h]

theorem c8_conclusions (w' : World) (e : Entity) (g : Nat)
    (hmm : w'.entities.metas.get? e.index = some (EntityMeta.mk (g + 1) Location.EMPTY))
    (hgen2 : g = e.generation)
    (hfree : ∃ l, w'.entities.free = l ++ [e.index]) :
    w'.is_alive e = false
    ∧ (∀ tid, w'.get_component tid e = none)
    ∧ (∀ tid v, w'.insert_component e tid v = Except.ok (w', []))
    ∧ (∀ tid, w'.remove_component tid e = Except.ok (w', []))
    ∧ w'.despawn_entity e = Except.ok (w', [])
    ∧ (∃ w2, w'.spawn_empty = Except.ok (w2, Entity.mk e.index (e.generation + 1))
        ∧ w2.is_alive (Entity.mk e.index (e.generation + 1)) = true) := by
  subst hgen2
  have hlt : e.index < w'.entities.metas.length := by
    by_contra hcon
    rw [List.get?_eq_none.mpr (by omega)] at hmm
    exact Option.noConfusion hmm
  have hmm' : w'.entities.metas[e.index]? = some (EntityMeta.mk (e.generation + 1) Location.EMPTY) := by
    rw [← List.get?_eq_getElem?]
    exact hmm
  have halive : w'.is_alive e = false := by
    simp [World.is_alive, hmm']
  refine ⟨halive, fun tid => get_component_not_alive w' e tid halive,
    fun tid v => insert_component_not_alive w' e tid v halive,
    fun tid => remove_component_not_alive w' e tid halive,
    despawn_entity_not_alive w' e halive, ?_⟩
  obtain ⟨l, hl⟩ := hfree
  have hlast : w'.entities.free.getLast? = some e.index := by
    rw [hl, List.getLast?_concat]
  refine ⟨{ w' with entities :=
      { metas := w'.entities.metas.set e.index
          { generation := e.generation + 1, location := Location.EMPTY }
        free := w'.entities.free.dropLast } }, ?_, ?_⟩
  · simp only [World.spawn_empty, Entities.create, hlast, hmm, Except.bind, pure, Except.pure]
    rfl
  · have h2 : (w'.entities.metas.set e.index
        { generation := e.generation + 1, location := Location.EMPTY })[e.index]?
        = some { generation := e.generation + 1, location := Location.EMPTY } := by
      simp [List.getElem?_set_self hlt]
    simp [World.is_alive, h2]

/-- C8: a despawned entity's slot is recycled by the next spawn at an
incremented generation, and the stale handle is rejected everywhere: after
`despawn_entity` succeeds on a live entity with a valid archetype,
`is_alive` is false, `get_component` is `none`, `insert_component`,
`remove_component` and `despawn_entity` are no-ops, while the next
`spawn_empty` returns the same index with generation + 1 and that new handle
is alive. -/
theorem c8_generational_safety (w w' : World) (e : Entity) (drops : List (TypeId × Val))
    (meta : EntityMeta)
    (hmeta : w.entities.metas.get? e.index = some meta)
    (hgen : meta.generation = e.generation)
    (harch : meta.location.archetype < w.archetypes.length)
    (hd : w.despawn_entity e = Except.ok (w', drops)) :
    w'.is_alive e = false
    ∧ (∀ tid, w'.get_component tid e = none)
    ∧ (∀ tid v, w'.insert_component e tid v = Except.ok (w', []))
    ∧ (∀ tid, w'.remove_component tid e = Except.ok (w', []))
    ∧ w'.despawn_entity e = Except.ok (w', [])
    ∧ (∃ w2, w'.spawn_empty = Except.ok (w2, Entity.mk e.index (e.generation + 1))
        ∧ w2.is_alive (Entity.mk e.index (e.generation + 1)) = true) := by
  have hmetaG : w.entities.metas[e.index]? = some meta := by
    rw [← List.get?_eq_getElem?]; exact hmeta
  have hltE : e.index < w.entities.metas.length := by
    by_contra hcon
    rw [List.get?_eq_none.mpr (by omega)] at hmeta
    exact Option.noConfusion hmeta
  have halive : w.is_alive e = true := by
    simp [World.is_alive, hmetaG, hgen]
  obtain ⟨arch, harchs⟩ : ∃ a, w.archetypes.get? meta.location.archetype = some a := by
    cases hx : w.archetypes.get? meta.location.archetype with
    | none => exact absurd harch (not_lt.mpr (List.get?_eq_none.mp hx))
    | some a => exact ⟨a, rfl⟩
  rw [World.despawn_entity, hmeta] at hd
  simp only [halive, not_true, if_false, Bool.not_eq_true] at hd
  rw [harchs] at hd
  simp only [Except.bind] at hd
  cases hsw : arch.swap_remove meta.location.row with
  | error s =>
      rw [hsw] at hd
      exact Except.noConfusion hd
  | ok t =>
      obtain ⟨movedOpt, arch2, drops2⟩ := t
      rw [hsw] at hd
      cases movedOpt with
      | none =>
          simp only [Bind.bind, Except.bind, pure, Except.pure, listSetE, listGetE,
            harch, hltE, if_true, hmeta] at hd
          simp only [Except.ok.injEq, Prod.mk.injEq] at hd
          obtain ⟨hw', hdrops⟩ := hd
          subst hw'
          apply c8_conclusions _ _ meta.generation _ hgen ⟨w.entities.free, rfl⟩
          rw [List.get?_eq_getElem?]
          simp [List.getElem?_set_self hltE]
      | some m =>
          cases hm : w.entities.metas.get? m with
          | none =>
              simp only [Bind.bind, Except.bind, pure, Except.pure, listSetE, listGetE,
                harch, if_true, hm] at hd
              exact Except.noConfusion hd
          | some movedMeta =>
              have hltM : m < w.entities.metas.length := by
                by_contra hcon
                rw [List.get?_eq_none.mpr (by omega)] at hm
                exact Option.noConfusion hm
              have hget2 : (w.entities.metas.set m
                  { movedMeta with location := meta.location }).get? e.index
                  = some (if m = e.index then { movedMeta with location := meta.location }
                          else meta) := by
                by_cases hme : m = e.index
                · subst hme
                  rw [List.get?_eq_getElem?]
                  simp [List.getElem?_set_self hltM]
                · rw [List.get?_eq_getElem?, List.getElem?_set_ne hme]
                  simp [hmetaG, hme]
              simp only [Bind.bind, Except.bind, pure, Except.pure, listSetE, listGetE,
                harch, hltE, hltM, List.length_set, if_true, hm, hget2] at hd
              simp only [Except.ok.injEq, Prod.mk.injEq] at hd
              obtain ⟨hw', hdrops⟩ := hd
              subst hw'
              have hgen3 : (if m = e.index then { movedMeta with location := meta.location }
                  else meta).generation = meta.generation := by
                by_cases hme : m = e.index
                · subst hme
                  rw [hmeta] at hm
                  obtain rfl := Option.some_inj.mp hm
                  simp
                · simp [hme]
              apply c8_conclusions _ _ meta.generation _ hgen ⟨w.entities.free, rfl⟩
              rw [List.get?_eq_getElem?]
              rw [hgen3]
              have hlt2 : e.index < (w.entities.metas.set m
                  { movedMeta with location := meta.location }).length := by
                simpa using hltE
              exact List.getElem?_set_self hlt2

/-- Witness for C8: spawn one entity with component 0 = 5 in a fresh world,
despawn it, and check the stale handle is dead while the slot is recycled at
generation 1. -/
def c8_w1 : World :=
  match World.new.spawn [(0, 5)] with
  | Except.ok p => p.1
  | Except.error _ => World.new

def c8_w2 : World :=
  match c8_w1.despawn_entity (Entity.mk 0 0) with
  | Except.ok p => p.1
  | Except.error _ => World.new

theorem c8_witness :
    c8_w2.is_alive (Entity.mk 0 0) = false
    ∧ (∃ w2, c8_w2.spawn_empty = Except.ok (w2, Entity.mk 0 1)
        ∧ w2.is_alive (Entity.mk 0 1) = true) := by
  have h := c8_generational_safety c8_w1 c8_w2 (Entity.mk 0 0) [(0, 5)]
    (EntityMeta.mk 0 (Location.mk 0 0)) (by decide) (by decide) (by decide) (by decide)
  exact ⟨h.1, h.2.2.2.2.2⟩

theorem colModify_cons (p : TypeId × BlobData) (rest : List (TypeId × BlobData))
    (t : TypeId) (g : BorrowState → BorrowState) :
    colModify (p :: rest) t g
      = (if p.1 = t then (p.1, { p.2 with borrow := g p.2.borrow }) else p)
          :: colModify rest t g := by
  simp only [colModify, List.map_cons]

theorem alLookup_colModify (cols : List (TypeId × BlobData)) (t : TypeId)
    (g : BorrowState → BorrowState) (t' : TypeId) :
    alLookup (colModify cols t g) t'
      = if t' = t then (alLookup cols t').map (fun c => { c with borrow := g c.borrow })
        else alLookup cols t' := by
  induction cols with
  | nil => by_cases h : t' = t <;> simp [colModify, alLookup, h]
  | cons p rest ih =>
      rw [colModify_cons]
      by_cases ht : t' = t
      · subst ht
        by_cases hp : p.1 = t'
        · simp [alLookup, hp]
        · simp [alLookup, hp, ih]
      · by_cases hp : p.1 = t <;> by_cases hq : p.1 = t'
        · exact absurd (hq.symm.trans hp) ht
        · simp [alLookup, hp, hq, ih, ht,
            (show ¬ t = t' from fun he => ht he.symm)]
        · simp [alLookup, hp, hq, ht]
        · simp [alLookup, hp, hq, ih, ht]

theorem colModify_keys (cols : List (TypeId × BlobData)) (t : TypeId)
    (g : BorrowState → BorrowState) :
    (colModify cols t g).map Prod.fst = cols.map Prod.fst := by
  induction cols with
  | nil => rfl
  | cons p rest ih =>
      rw [colModify_cons]
      by_cases hp : p.1 = t <;> simp [hp, ih]

theorem colModify_congr (cols : List (TypeId × BlobData)) (t : TypeId)
    (g g' : BorrowState → BorrowState) (h : ∀ b, g b = g' b) :
    colModify cols t g = colModify cols t g' := by
  induction cols with
  | nil => rfl
  | cons p rest ih =>
      rw [colModify_cons, colModify_cons, ih]
      by_cases hp : p.1 = t <;> simp [hp, h]

theorem colModify_colModify (cols : List (TypeId × BlobData)) (t : TypeId)
    (g1 g2 : BorrowState → BorrowState) :
    colModify (colModify cols t g1) t g2 = colModify cols t (fun b => g2 (g1 b)) := by
  induction cols with
  | nil => rfl
  | cons p rest ih =>
      rw [colModify_cons, colModify_cons, colModify_cons]
      by_cases hp : p.1 = t <;> simp [hp, ih]

theorem colModify_comm_ne (cols : List (TypeId × BlobData)) (t1 t2 : TypeId)
    (g1 g2 : BorrowState → BorrowState) (hne : t1 ≠ t2) :
    colModify (colModify cols t2 g2) t1 g1 = colModify (colModify cols t1 g1) t2 g2 := by
  induction cols with
  | nil => rfl
  | cons p rest ih =>
      rw [colModify_cons, colModify_cons, colModify_cons, colModify_cons, ih]
      congr 1
      by_cases h1 : p.1 = t1 <;> by_cases h2 : p.1 = t2
      · exact absurd (h1.symm.trans h2) hne
      · simp [h1, h2, hne, (show ¬ t1 = t2 from hne)]
      · simp [h1, h2, (show ¬ t2 = t1 from fun he => hne he.symm)]
      · simp [h1, h2]

theorem colModify_absent (cols : List (TypeId × BlobData)) (t : TypeId)
    (g : BorrowState → BorrowState) (h : alLookup cols t = none) :
    colModify cols t g = cols := by
  induction cols with
  | nil => rfl
  | cons p rest ih =>
      rw [colModify_cons]
      by_cases hp : p.1 = t
      · simp [alLookup, hp] at h
      · simp only [alLookup, hp, if_false, if_neg hp] at h
        simp [hp, ih h]

theorem alLookup_mem_keys (cols : List (TypeId × BlobData)) (t : TypeId) (c : BlobData)
    (h : alLookup cols t = some c) : t ∈ cols.map Prod.fst := by
  induction cols with
  | nil => exact Option.noConfusion h
  | cons p rest ih =>
      by_cases hp : p.1 = t
      · simp [hp]
      · simp only [alLookup, if_neg hp] at h
        simp [ih h]

theorem colModify_fix (cols : List (TypeId × BlobData)) (t : TypeId)
    (g : BorrowState → BorrowState) (c : BlobData)
    (hnd : (cols.map Prod.fst).Nodup) (hc : alLookup cols t = some c)
    (hg : g c.borrow = c.borrow) :
    colModify cols t g = cols := by
  induction cols with
  | nil => exact Option.noConfusion hc
  | cons p rest ih =>
      rw [colModify_cons]
      rw [List.map_cons, List.nodup_cons] at hnd
      by_cases hp : p.1 = t
      · simp only [alLookup, if_pos hp] at hc
        obtain rfl := Option.some_inj.mp hc
        have habs : alLookup rest t = none := by
          cases hr : alLookup rest t with
          | none => rfl
          | some c2 => exact absurd (hp ▸ alLookup_mem_keys rest t c2 hr) hnd.1
        rw [if_pos hp, hg, colModify_absent rest t g habs]
      · simp only [alLookup, if_neg hp] at hc
        simp [hp, ih hnd.2 hc]

/-- The common shape of `Fetch::release` on one column: do nothing when the
column is absent, apply `g` to its borrow counter otherwise. -/
def relGenCols (t : TypeId) (g : BorrowState → BorrowState)
    (cols : List (TypeId × BlobData)) : List (TypeId × BlobData) :=
  match alLookup cols t with
  | none => cols
  | some _ => colModify cols t g

/-- Archetype-level view of `relGenCols`. -/
def relGen (t : TypeId) (g : BorrowState → BorrowState) (a : Archetype) : Archetype :=
  { a with columns := relGenCols t g a.columns }

theorem releaseAtom_read_eq (t : TypeId) (a : Archetype) :
    releaseAtom (FetchAtom.read t) a = relGen t BorrowState.release a := by
  simp only [releaseAtom, relGen, relGenCols, Archetype.modifyBorrow]
  cases alLookup a.columns t <;> rfl

theorem releaseAtom_write_eq (t : TypeId) (a : Archetype) :
    releaseAtom (FetchAtom.write t) a = relGen t BorrowState.release_mut a := by
  simp only [releaseAtom, relGen, relGenCols, Archetype.modifyBorrow]
  cases alLookup a.columns t <;> rfl

theorem relGenCols_comm (t1 t2 : TypeId) (g1 g2 : BorrowState → BorrowState)
    (cols : List (TypeId × BlobData)) (hcomm : ∀ b, g1 (g2 b) = g2 (g1 b)) :
    relGenCols t1 g1 (relGenCols t2 g2 cols) = relGenCols t2 g2 (relGenCols t1 g1 cols) := by
  by_cases he : t1 = t2
  · subst he
    unfold relGenCols
    cases h : alLookup cols t1 with
    | none => simp only [h]
    | some c =>
        simp only [h, alLookup_colModify, if_pos rfl, Option.map_some]
        rw [colModify_colModify, colModify_colModify]
        exact colModify_congr _ _ _ _ hcomm
  · unfold relGenCols
    cases h2 : alLookup cols t2 with
    | none =>
        cases h1 : alLookup cols t1 with
        | none => simp only [h2, h1]
        | some c1 =>
            simp [h2, h1, alLookup_colModify,
              if_neg (fun (hh : t2 = t1) => he hh.symm)]
    | some c2 =>
        cases h1 : alLookup cols t1 with
        | none =>
            simp [h2, h1, alLookup_colModify, if_neg he,
              if_neg (fun (hh : t2 = t1) => he hh.symm)]
        | some c1 =>
            simp only [h2, h1, alLookup_colModify, if_neg he,
              if_neg (fun (hh : t2 = t1) => he hh.symm)]
            exact colModify_comm_ne cols t1 t2 g1 g2 he

theorem relGen_comm (t1 t2 : TypeId) (g1 g2 : BorrowState → BorrowState) (a : Archetype)
    (hcomm : ∀ b, g1 (g2 b) = g2 (g1 b)) :
    relGen t1 g1 (relGen t2 g2 a) = relGen t2 g2 (relGen t1 g1 a) := by
  simp only [relGen]
  rw [relGenCols_comm t1 t2 g1 g2 a.columns hcomm]

theorem releaseAtom_comm (fa fb : FetchAtom) (a : Archetype) :
    releaseAtom fa (releaseAtom fb a) = releaseAtom fb (releaseAtom fa a) := by
  have hrm : ∀ b, BorrowState.release (BorrowState.release_mut b)
      = BorrowState.release_mut (BorrowState.release b) := by
    intro b; cases b <;> rfl
  cases fa with
  | entity => rfl
  | read t1 =>
      cases fb with
      | entity => rfl
      | read t2 =>
          rw [releaseAtom_read_eq, releaseAtom_read_eq, releaseAtom_read_eq,
            releaseAtom_read_eq]
          exact relGen_comm t1 t2 _ _ a (fun b => rfl)
      | write t2 =>
          rw [releaseAtom_read_eq, releaseAtom_write_eq, releaseAtom_write_eq,
            releaseAtom_read_eq]
          exact relGen_comm t1 t2 _ _ a hrm
  | write t1 =>
      cases fb with
      | entity => rfl
      | read t2 =>
          rw [releaseAtom_write_eq, releaseAtom_read_eq, releaseAtom_read_eq,
            releaseAtom_write_eq]
          exact relGen_comm t1 t2 _ _ a (fun b => (hrm b).symm)
      | write t2 =>
          rw [releaseAtom_write_eq, releaseAtom_write_eq, releaseAtom_write_eq,
            releaseAtom_write_eq]
          exact relGen_comm t1 t2 _ _ a (fun b => rfl)

theorem releaseAtoms_releaseAtom (fs : List FetchAtom) (fa : FetchAtom) :
    ∀ a, releaseAtoms fs (releaseAtom fa a) = releaseAtom fa (releaseAtoms fs a) := by
  induction fs with
  | nil => intro a; rfl
  | cons fb rest ih =>
      intro a
      show releaseAtoms rest (releaseAtom fb (releaseAtom fa a))
        = releaseAtom fa (releaseAtoms rest (releaseAtom fb a))
      rw [releaseAtom_comm fb fa a, ih (releaseAtom fb a)]

theorem acquireAtom_keys (fa : FetchAtom) (a a2 : Archetype)
    (h : acquireAtom fa a = Except.ok a2) :
    a2.columns.map Prod.fst = a.columns.map Prod.fst := by
  cases fa with
  | entity =>
      obtain rfl := Except.ok.inj h
      rfl
  | read t =>
      cases hl : alLookup a.columns t with
      | none =>
          simp only [acquireAtom, hl] at h
          exact Except.noConfusion h
      | some c =>
          cases hb : c.borrow.borrow with
          | none =>
              simp only [acquireAtom, hl, hb] at h
              exact Except.noConfusion h
          | some b =>
              simp only [acquireAtom, hl, hb] at h
              obtain rfl := Except.ok.inj h
              simp only [Archetype.modifyBorrow]
              exact colModify_keys a.columns t _
  | write t =>
      cases hl : alLookup a.columns t with
      | none =>
          simp only [acquireAtom, hl] at h
          exact Except.noConfusion h
      | some c =>
          cases hb : c.borrow.borrow_mut with
          | none =>
              simp only [acquireAtom, hl, hb] at h
              exact Except.noConfusion h
          | some b =>
              simp only [acquireAtom, hl, hb] at h
              obtain rfl := Except.ok.inj h
              simp only [Archetype.modifyBorrow]
              exact colModify_keys a.columns t _

theorem acquireAtom_releaseAtom (fa : FetchAtom) (a a2 : Archetype)
    (hnd : (a.columns.map Prod.fst).Nodup)
    (h : acquireAtom fa a = Except.ok a2) :
    releaseAtom fa a2 = a := by
  cases fa with
  | entity =>
      obtain rfl := Except.ok.inj h
      rfl
  | read t =>
      cases hl : alLookup a.columns t with
      | none =>
          simp only [acquireAtom, hl] at h
          exact Except.noConfusion h
      | some c =>
          cases hbs : c.borrow with
          | exclusive =>
              simp only [acquireAtom, hl, hbs, BorrowState.borrow] at h
              exact Except.noConfusion h
          | shared n =>
              simp only [acquireAtom, hl, hbs, BorrowState.borrow] at h
              obtain rfl := Except.ok.inj h
              have hlook : alLookup (Archetype.modifyBorrow a t
                  (fun _ => BorrowState.shared (n + 1))).columns t
                  = some { c with borrow := BorrowState.shared (n + 1) } := by
                simp only [Archetype.modifyBorrow]
                rw [alLookup_colModify, if_pos rfl, hl]
                rfl
              simp only [releaseAtom, hlook, Archetype.modifyBorrow, colModify_colModify, hl]
              have hfix : colModify a.columns t
                  (fun _ => (BorrowState.shared (n + 1)).release) = a.columns :=
                colModify_fix a.columns t
                  (fun _ => (BorrowState.shared (n + 1)).release) c hnd hl
                  (by rw [hbs]; rfl)
              rw [hfix, alLookup_colModify, if_pos rfl, hl]
              exact rfl
  | write t =>
      cases hl : alLookup a.columns t with
      | none =>
          simp only [acquireAtom, hl] at h
          exact Except.noConfusion h
      | some c =>
          cases hbs : c.borrow with
          | exclusive =>
              simp only [acquireAtom, hl, hbs, BorrowState.borrow_mut] at h
              exact Except.noConfusion h
          | shared n =>
              cases n with
              | succ k =>
                  simp only [acquireAtom, hl, hbs, BorrowState.borrow_mut] at h
                  exact Except.noConfusion h
              | zero =>
                  simp only [acquireAtom, hl, hbs, BorrowState.borrow_mut] at h
                  obtain rfl := Except.ok.inj h
                  have hlook : alLookup (Archetype.modifyBorrow a t
                      (fun _ => BorrowState.exclusive)).columns t
                      = some { c with borrow := BorrowState.exclusive } := by
                    simp only [Archetype.modifyBorrow]
                    rw [alLookup_colModify, if_pos rfl, hl]
                    rfl
                  simp only [releaseAtom, hlook, Archetype.modifyBorrow,
                    colModify_colModify, hl]
                  have hfix : colModify a.columns t
                      (fun _ => BorrowState.exclusive.release_mut) = a.columns :=
                    colModify_fix a.columns t
                      (fun _ => BorrowState.exclusive.release_mut) c hnd hl
                      (by rw [hbs]; rfl)
                  rw [hfix, alLookup_colModify, if_pos rfl, hl]
                  exact rfl

theorem acquireSlices_release (fs : List FetchAtom) :
    ∀ (a a2 : Archetype), (a.columns.map Prod.fst).Nodup →
      acquireSlices fs a = Except.ok a2 → releaseAtoms fs a2 = a := by
  induction fs with
  | nil =>
      intro a a2 _ h
      obtain rfl := Except.ok.inj h
      rfl
  | cons fa rest ih =>
      intro a a2 hnd h
      simp only [acquireSlices] at h
      cases ha : acquireAtom fa a with
      | error s => rw [ha] at h; exact Except.noConfusion h
      | ok a1 =>
          rw [ha] at h
          simp only [Except.bind] at h
          have hnd1 : (a1.columns.map Prod.fst).Nodup := by
            rw [acquireAtom_keys fa a a1 ha]
            exact hnd
          calc releaseAtoms (fa :: rest) a2
              = releaseAtoms rest (releaseAtom fa a2) := rfl
            _ = releaseAtom fa (releaseAtoms rest a2) := releaseAtoms_releaseAtom rest fa a2
            _ = releaseAtom fa a1 := by rw [ih a1 a2 hnd1 h]
            _ = a := acquireAtom_releaseAtom fa a a1 hnd ha

/-- C6 (amended): every column borrow acquired on entering an archetype is
released when iteration leaves it — after a successful acquisition of all
fetch slices, performing the leave-releases restores the archetype, borrow
counters included, to its pre-entry state — but `QueryIter` has no `Drop`
impl, so dropping the iterator releases nothing (`dropIter` returns the
archetypes unchanged). -/
theorem c6_release_restores_borrows (fs : List FetchAtom) (a a2 : Archetype)
    (hnd : (a.columns.map Prod.fst).Nodup)
    (h : acquireSlices fs a = Except.ok a2) :
    releaseAtoms fs a2 = a
    ∧ ∀ (archs : List Archetype) (st : IterState), dropIter archs st = archs :=
  ⟨acquireSlices_release fs a a2 hnd h, fun _ _ => rfl⟩

/-- Counterexample for C6 as stated: one archetype, one column, a query of a
single shared read.  After one `next` the column's borrow counter is
`shared 1`; dropping the iterator before exhaustion runs no code (no `Drop`
impl exists), so after the iterator is gone the counter is still `shared 1`,
not the pre-iteration `shared 0`. -/
theorem c6_dropped_iter_keeps_borrow :
    (exOk? (queryNext [FetchAtom.read 0] c6_archs c6_st0)).map
        (fun r => (r.1, dropIter r.2.1 r.2.2))
      = some (some 0,
          [{ columns := [(0, { data := [42], borrow := .shared 1 })]
             rows := [7], count := 1, bitmask := 1 }])
    ∧ BorrowState.shared 1 ≠ BorrowState.shared 0 := by decide

/-- Witness for C6's amended theorem at a shared read of column 0 plus an
exclusive read of column 1. -/
theorem c6_witness :
    acquireSlices [FetchAtom.read 0, FetchAtom.write 1] c6_arch_w = Except.ok c6_arch_w2
    ∧ releaseAtoms [FetchAtom.read 0, FetchAtom.write 1] c6_arch_w2 = c6_arch_w :=
  ⟨by decide,
   (c6_release_restores_borrows [FetchAtom.read 0, FetchAtom.write 1] c6_arch_w c6_arch_w2
      (by decide) (by decide)).1⟩

/-- Witness for C10 at the empty archetype of bitmask 3 and index 0. -/
theorem c10_witness :
    (Archetype.new 3).swap_remove 0 = Except.ok (none, Archetype.new 3, [])
    ∧ (Archetype.new 3).move_to 0 (fun (s : Nat) v _ => s + v) 0
        = Except.ok (none, Archetype.new 3, 0) :=
  c10_out_of_bounds_noop (Archetype.new 3) 0 (Nat.le_refl 0) (fun s v _ => s + v) 0

end Becs
